import Mathlib

/-!
Shallow embedding of the AI-WEB-Agent recursive research system
(`research_agent.py`, `llm_interface.py`, `proxy_handler.py`) and proofs
about its specified properties.

Python strings are modelled as `List Char`; Python `None` / raised
exceptions in collaborator calls are modelled with `Option`.
-/

/-- Python strings are modelled as lists of characters. -/
abbrev Str := List Char

/-- Python's whitespace class `\s` (space, tab, newline, carriage return,
vertical tab, form feed), used by `str.split()`, `str.strip()` and the
`re.sub(r'\s+', ...)` calls in `llm_interface.py`. -/
def pyIsSpace (c : Char) : Bool :=
  c == ' ' || c == '\t' || c == '\n' || c == '\r' || c == '\x0b' || c == '\x0c'

/-- Python `re.sub(r'\s+', ' ', s)`: every maximal run of whitespace becomes a
single space (`DummyLLM.generate_sub_queries`, llm_interface.py line 39). -/
def collapseWs : Str → Str
  | [] => []
  | c :: rest =>
    if pyIsSpace c then
      match rest with
      | [] => [' ']
      | c2 :: _ => if pyIsSpace c2 then collapseWs rest else ' ' :: collapseWs rest
    else c :: collapseWs rest

/-- Python `str.split()` with no separator: split on whitespace runs,
dropping empty chunks. -/
def splitWs : Str → List Str
  | [] => []
  | c :: rest =>
    if pyIsSpace c then splitWs rest
    else
      match rest with
      | [] => [[c]]
      | c2 :: _ =>
        if pyIsSpace c2 then [c] :: splitWs rest
        else
          match splitWs rest with
          | [] => [[c]]
          | w :: ws => (c :: w) :: ws

/-- Python `sep.join(parts)`. -/
def joinWith (sep : Str) : List Str → Str
  | [] => []
  | w :: rest =>
    match rest with
    | [] => w
    | _ :: _ => w ++ sep ++ joinWith sep rest

/-- Python `str.lower()` (ASCII inputs in this code base). -/
def pyLower (s : Str) : Str := s.map Char.toLower

/-- Python `str.strip()`: remove leading and trailing whitespace. -/
def pyStrip (s : Str) : Str :=
  ((s.dropWhile pyIsSpace).reverse.dropWhile pyIsSpace).reverse

/-- Python `a.startswith(b)` as a boolean on character lists. -/
def startsWithStr : Str → Str → Bool
  | [], _ => true
  | _ :: _, [] => false
  | a :: as, b :: bs => a == b && startsWithStr as bs

/-- Python `a in b` (substring containment) as a boolean on character lists. -/
def containsStr (needle : Str) : Str → Bool
  | [] => startsWithStr needle []
  | c :: rest => startsWithStr needle (c :: rest) || containsStr needle rest

/-- Python `s.split(sep)` for a non-empty literal separator, written with an
explicit character budget (`fuel`), initially the length of the string; each
step consumes at least one character, so the budget is never exhausted. -/
def splitOnStrFuel (sep : Str) : Nat → Str → Str → List Str
  | 0, s, acc => [acc.reverse ++ s]
  | fuel + 1, s, acc =>
    match s with
    | [] => [acc.reverse]
    | c :: rest =>
      if startsWithStr sep s then
        acc.reverse :: splitOnStrFuel sep fuel (s.drop sep.length) []
      else
        splitOnStrFuel sep fuel rest (c :: acc)

/-- Python `s.split(sep)` (non-empty separator). -/
def splitOnStr (sep s : Str) : List Str := splitOnStrFuel sep s.length s []

/-- The `{source: url, content: text}` items gathered per URL
(`ResearchAgent.research`, research_agent.py lines 115-119). -/
structure ContentItem where
  source : Str
  content : Str
deriving DecidableEq

/-- Embedding of `DummyLLM.filter_content` (llm_interface.py lines 24-28):
`' '.join(content.split())` then truncation `[:1000]`. -/
def filter_content (content : Str) : Str :=
  (joinWith [' '] (splitWs content)).take 1000

/-- The question-indicating phrases of `DummyLLM.generate_sub_queries`
(llm_interface.py lines 60-62). -/
def keyPhrases : List Str :=
  [("what is".toList), ("how to".toList), ("why does".toList), ("explain".toList),
   ("difference between".toList), ("compare".toList), ("define".toList)]

/-- The question words checked by `sentence.lower().startswith(w)`
(llm_interface.py lines 72-73). -/
def qwords : List Str :=
  [("what".toList), ("how".toList), ("why".toList), ("when".toList),
   ("where".toList), ("who".toList)]

/-- The literal prefix `"What is meant by: "` (llm_interface.py line 75). -/
def qpfx : Str := ("What is meant by: ".toList)

/-- Sentence selection of `DummyLLM.generate_sub_queries` (llm_interface.py
lines 30-67): combine item contents with spaces, collapse whitespace, strip
quote characters, split the same text on each of `'. '`, `'? '`, `'! '`,
`'\n'`, and keep stripped sentences of 4-20 words that contain a key phrase
or share a word with the lowercased query.  The Python `set` accumulator is
modelled as a first-insertion-ordered duplicate-free list; every property
proved about it is independent of iteration order. -/
def selectSentences (query : Str) (content : List ContentItem) : List Str :=
  let combined := joinWith [' '] (content.map ContentItem.content)
  let text := collapseWs combined
  let text := text.filter (fun c => !(c == '"') && !(c == '\''))
  let sentences :=
    splitOnStr (". ".toList) text ++ splitOnStr ("? ".toList) text ++
    splitOnStr ("! ".toList) text ++ splitOnStr ("\n".toList) text
  sentences.foldl (fun acc sentence =>
    let sentence := pyStrip sentence
    let words := splitWs sentence
    if 4 ≤ words.length && words.length ≤ 20 then
      let lower := pyLower sentence
      if keyPhrases.any (fun p => containsStr p lower) then
        if sentence ∈ acc then acc else acc ++ [sentence]
      else if (splitWs (pyLower query)).any (fun w => containsStr w lower) then
        if sentence ∈ acc then acc else acc ++ [sentence]
      else acc
    else acc) []

/-- The question-rewriting step of `DummyLLM.generate_sub_queries`
(llm_interface.py lines 70-78): a sentence not already starting with a
question word is prefixed with `"What is meant by: "`. -/
def pyQuestionize (sentence : Str) : Str :=
  if !(qwords.any (fun w => startsWithStr w (pyLower sentence))) then
    qpfx ++ sentence
  else sentence

/-- Embedding of `DummyLLM.generate_sub_queries` (llm_interface.py lines 30-81):
select sentences, take the first 5, rewrite each as a question. -/
def generate_sub_queries (query : Str) (content : List ContentItem) : List Str :=
  ((selectSentences query content).take 5).map pyQuestionize

/-- A node of the research result tree:
`{"query": ..., "content": ..., "sub_queries": ...}`
(`ResearchAgent.research`, research_agent.py lines 141-146). -/
inductive ResultNode where
  | mk (query : Str) (content : List ContentItem) (subQueries : List ResultNode)

/-- The `"query"` field of a result node. -/
def ResultNode.query : ResultNode → Str
  | .mk q _ _ => q

/-- The `"content"` field of a result node. -/
def ResultNode.content : ResultNode → List ContentItem
  | .mk _ c _ => c

/-- The `"sub_queries"` field of a result node. -/
def ResultNode.subQueries : ResultNode → List ResultNode
  | .mk _ _ s => s

/-- Embedding of `DummyLLM.summarize_results` (llm_interface.py lines 83-94): for each
result, a `## query` heading followed by one `- <first 200 chars>...`
bullet per content item, nodes joined by blank lines.  The Python
`list.append` loops are modelled as left folds pushing onto the back. -/
def summarize_results (results : List ResultNode) : Str :=
  let summary := results.foldl (fun acc r =>
    let contentSummary := r.content.foldl (fun cs item =>
      cs ++ [("- ".toList) ++ item.content.take 200 ++ ("...".toList)]) []
    acc ++ [("## ".toList) ++ r.query ++ ("\n".toList) ++
            joinWith ("\n".toList) contentSummary]) []
  joinWith ("\n\n".toList) summary

/-! ## Search Resolver (`ResearchAgent._get_search_urls`) -/

/-- The anchors found by BeautifulSoup for each of the three CSS selectors
tried in `_get_search_urls` (research_agent.py lines 52-57); each anchor's
`href` attribute may be absent (`None`). -/
structure SearchPage where
  resultUrl : List (Option Str)
  resultSnippet : List (Option Str)
  anyHttpLink : List (Option Str)

/-- The blocked substrings of `_get_search_urls` (research_agent.py line 63). -/
def blockedParts : List Str :=
  [(".pdf".toList), (".doc".toList), ("javascript:".toList), ("mailto:".toList)]

/-- Python `any(blocked in url for blocked in [...])`. -/
def blockedIn (url : Str) : Bool :=
  blockedParts.any (fun b => containsStr b url)

/-- The inner anchor loop of `_get_search_urls` (research_agent.py lines
59-64): append each present `href` that starts with `http` and contains no
blocked substring. -/
def collectFrom (urls : List Str) (links : List (Option Str)) : List Str :=
  links.foldl (fun acc link =>
    match link with
    | none => acc
    | some url =>
      if !url.isEmpty && startsWithStr ("http".toList) url && !blockedIn url then
        acc ++ [url]
      else acc) urls

/-- The selector loop of `_get_search_urls` (research_agent.py lines 58-67):
selectors are tried in order, stopping as soon as the accumulated URL list
is non-empty after a selector pass. -/
def selectUrls (page : SearchPage) : List Str :=
  let u1 := collectFrom [] page.resultUrl
  if !u1.isEmpty then u1
  else
    let u2 := collectFrom u1 page.resultSnippet
    if !u2.isEmpty then u2
    else collectFrom u2 page.anyHttpLink

/-- Python `list(dict.fromkeys(urls))` (research_agent.py line 70): deduplicate
preserving first-seen order. -/
def dedupKeepFirst (l : List Str) : List Str :=
  l.foldl (fun acc u => if u ∈ acc then acc else acc ++ [u]) []

/-- The observable outcome of the one `requests.get` call performed by
`_get_search_urls`: either a raised exception, or a response with a status
code and a parsed result page. -/
inductive SearchOutcome where
  | exn
  | response (status : Nat) (page : SearchPage)

/-- Embedding of `ResearchAgent._get_search_urls` (research_agent.py lines 29-82): on a
raised exception or a non-200 status return `[]`; otherwise parse, dedup
and truncate to 5 URLs.  There is no fallback URL list in this function. -/
def get_search_urls (o : SearchOutcome) : List Str :=
  match o with
  | .exn => []
  | .response status page =>
    if status ≠ 200 then []
    else (dedupKeepFirst (selectUrls page)).take 5

/-! ## Resilient Transport (`ProxyHandler`, proxy_handler.py) -/

/-- The `ProxyHandler` state (proxy_handler.py lines 8-20): the proxy pool, the
proxy used by the request in flight, the set of failed proxies, and the
per-proxy success counts (a dict, modelled as an association list). -/
structure ProxyHandler where
  proxies : List Str
  current_proxy : Option Str
  failed_proxies : List Str
  success_count : List (Str × Nat)

/-- Python `self.success_count.get(p, 0)`. -/
def scLookup (sc : List (Str × Nat)) (p : Str) : Nat :=
  match sc.find? (fun e => e.1 == p) with
  | some e => e.2
  | none => 0

/-- Python `self.success_count[p] = n` (dict update). -/
def scSet (sc : List (Str × Nat)) (p : Str) (n : Nat) : List (Str × Nat) :=
  (p, n) :: sc.filter (fun e => !(e.1 == p))

/-- Python `max(available, key=...)`: the first element with a maximal key
(`max` keeps the earliest maximum).  Returns `none` on an empty list, where
Python would raise `ValueError`. -/
def pyMaxBy (key : Str → Nat) : List Str → Option Str
  | [] => none
  | x :: xs =>
    match pyMaxBy key xs with
    | none => some x
    | some y => if key y > key x then some y else some x

/-- Embedding of `ProxyHandler._get_next_proxy` (proxy_handler.py lines 22-32): drop
failed proxies, reset the failed set if that empties the pool, then pick
the proxy with the highest success count and record it as current.
`none` only when the pool itself is empty (a `ValueError` in the source). -/
def get_next_proxy (h : ProxyHandler) : Option (Str × ProxyHandler) :=
  let available := h.proxies.filter (fun p => !(h.failed_proxies.contains p))
  let cleared := available.isEmpty
  let failed2 := if cleared then [] else h.failed_proxies
  let available2 := if cleared then h.proxies else available
  match pyMaxBy (scLookup h.success_count) available2 with
  | none => none
  | some p => some (p, { h with failed_proxies := failed2, current_proxy := some p })

/-- Embedding of `ProxyHandler.mark_success` (proxy_handler.py lines 39-42). -/
def mark_success (h : ProxyHandler) : ProxyHandler :=
  match h.current_proxy with
  | none => h
  | some p => { h with success_count := scSet h.success_count p (scLookup h.success_count p + 1) }

/-- Embedding of `ProxyHandler.mark_failed` (proxy_handler.py lines 44-48). -/
def mark_failed (h : ProxyHandler) : ProxyHandler :=
  match h.current_proxy with
  | none => h
  | some p => { h with failed_proxies := p :: h.failed_proxies, current_proxy := none }

/-- The observable outcome of one `requests.get` attempt inside
`ProxyHandler.make_request`: a status code, or a raised `RequestException`. -/
inductive AttemptOutcome where
  | status (code : Nat)
  | exn

/-- The retry loop of `ProxyHandler.make_request` (proxy_handler.py lines
50-75), recursing on the number of remaining attempts; `env attempt proxy`
is the network's response to the given attempt.  On status 200 the response
(modelled by its status code) is returned after `mark_success`; any other
status or an exception marks the proxy failed and retries.  `remaining = 0`
yields `none` ("no response"). -/
def makeRequestLoop (env : Nat → Str → AttemptOutcome) :
    Nat → Nat → ProxyHandler → Option Nat × ProxyHandler
  | _, 0, h => (none, h)
  | attempt, r + 1, h =>
    match get_next_proxy h with
    | none => (none, h)
    | some (p, h1) =>
      match env attempt p with
      | .status code =>
        if code = 200 then (some code, mark_success h1)
        else makeRequestLoop env (attempt + 1) r (mark_failed h1)
      | .exn => makeRequestLoop env (attempt + 1) r (mark_failed h1)

/-- Embedding of `ProxyHandler.make_request` (proxy_handler.py lines 50-75). -/
def make_request (env : Nat → Str → AttemptOutcome) (h : ProxyHandler)
    (max_retries : Nat) : Option Nat × ProxyHandler :=
  makeRequestLoop env 0 max_retries h

/-- The proxy pool of `ProxyHandler.__init__` (proxy_handler.py lines 10-16). -/
def defaultProxies : List Str :=
  [("http://165.225.38.32:10605".toList), ("http://165.225.38.68:10605".toList),
   ("http://164.92.105.75:8888".toList), ("http://51.159.115.233:3128".toList),
   ("http://20.111.54.16:8123".toList)]

/-- A fresh `ProxyHandler()` (proxy_handler.py lines 8-20). -/
def initProxyHandler : ProxyHandler :=
  { proxies := defaultProxies, current_proxy := none,
    failed_proxies := [], success_count := [] }

/-! ## Recursive Orchestrator (`ResearchAgent.research`, research_agent.py) -/

/-- The collaborators `ResearchAgent.research` calls, as fallible oracles:
`searchUrls` is `_get_search_urls`, `extract` is `_extract_content`,
`filterC` is `self.llm.filter_content`, `genSub` is
`self.llm.generate_sub_queries`.  A `none` result models an exception
raised by the call, which the `try`/`except` of `research` must absorb
(the `DummyLLM` variants above never raise, but `research` is written
against the polymorphic `LLMInterface`). -/
structure Env where
  searchUrls : Str → Option (List Str)
  extract : Str → Option Str
  filterC : Str → Option Str
  genSub : Str → List ContentItem → Option (List Str)

/-- The mutable state of one `ResearchAgent` run: `self.visited_urls`,
`self.results`, plus two observation logs used only to state theorems —
`fetchLog` records every URL the agent fetches (in order), `searchLog`
records every search-resolution call. -/
structure AgentState where
  visited : List Str
  results : List ResultNode
  fetchLog : List Str
  searchLog : List Str

/-- Record a `_get_search_urls` call in the observation log. -/
def logSearch (st : AgentState) (query : Str) : AgentState :=
  { st with searchLog := st.searchLog ++ [query] }

/-- The per-URL loop of `research` (research_agent.py lines 106-126):
for each of the top URLs, skip it if already visited, otherwise add it to
the visited set, fetch and extract its text, and if the text is non-empty
filter it and append a `{source, content}` item.  The second component is
`none` when an extraction or filtering call raised, aborting the loop with
the state mutated so far (the exception travels to `research`'s handler). -/
def processUrls (env : Env) : List Str → AgentState → List ContentItem →
    AgentState × Option (List ContentItem)
  | [], st, acc => (st, some acc)
  | url :: rest, st, acc =>
    if url ∈ st.visited then processUrls env rest st acc
    else
      let st2 := { st with visited := url :: st.visited,
                           fetchLog := st.fetchLog ++ [url] }
      match env.extract url with
      | none => (st2, none)
      | some text =>
        if text.isEmpty then processUrls env rest st2 acc
        else
          match env.filterC text with
          | none => (st2, none)
          | some ftext => processUrls env rest st2 (acc ++ [⟨url, ftext⟩])

/-- Embedding of `ResearchAgent.research` (research_agent.py lines 84-155), with the
depth-bounded recursion encoded by the fuel value `max_depth - depth`: the
source's guard `depth >= self.max_depth` is exactly `fuel = 0`, and the
recursive call at `depth + 1` runs at `fuel - 1`.  The body mirrors the
`try` block; every `none` from a collaborator reproduces the `except`
branch, which returns the terminal empty node with the state mutated so
far.  The loop over `sub_queries[:2]` is unrolled (it runs at most twice).
Returns the result node together with the updated agent state. -/
def researchFuel (env : Env) : Nat → Str → AgentState → ResultNode × AgentState
  | 0, query, st => (.mk query [] [], st)
  | f + 1, query, st =>
    match env.searchUrls query with
    | none => (.mk query [] [], logSearch st query)
    | some urls =>
      match processUrls env (urls.take 3) (logSearch st query) [] with
      | (st1, none) => (.mk query [] [], st1)
      | (st1, some content) =>
        if content.isEmpty then (.mk query [] [], st1)
        else
          match env.genSub query content with
          | none => (.mk query [] [], st1)
          | some subs =>
            let (subResults, st2) :=
              match subs with
              | [] => ([], st1)
              | [q1] =>
                let (n1, s1) := researchFuel env f q1 st1
                ([n1], s1)
              | q1 :: q2 :: _ =>
                let (n1, s1) := researchFuel env f q1 st1
                let (n2, s2) := researchFuel env f q2 s1
                ([n1, n2], s2)
            let node := ResultNode.mk query content subResults
            (node, { st2 with results := st2.results ++ [node] })

/-- Embedding of `ResearchAgent.research(query, depth)` for an agent with the given
`max_depth` (research_agent.py lines 84-155). -/
def research (env : Env) (max_depth : Nat) (query : Str) (depth : Nat)
    (st : AgentState) : ResultNode × AgentState :=
  researchFuel env (max_depth - depth) query st

/-- An error is raised somewhere in the body of `research` for this query:
while resolving URLs, while fetching/filtering one of them, or while
generating sub-queries.  (Recursive child calls never raise — they catch
their own errors — so these are the only raise sites in the `try` block.) -/
def queryFails (env : Env) (query : Str) (st : AgentState) : Prop :=
  match env.searchUrls query with
  | none => True
  | some urls =>
    match processUrls env (urls.take 3) (logSearch st query) [] with
    | (_, none) => True
    | (_, some content) => ¬content.isEmpty ∧ env.genSub query content = none

/-! ## Derived notions used only to state the theorems -/

mutual
/-- A result node and all of its descendants satisfy the invariant
`content = [] → subQueries = []`. -/
def nodeInv : ResultNode → Bool
  | .mk _ content subs => (!content.isEmpty || subs.isEmpty) && nodeInvList subs

/-- Check `nodeInv` for every node of a list of trees. -/
def nodeInvList : List ResultNode → Bool
  | [] => true
  | n :: rest => nodeInv n && nodeInvList rest
end

/-- The fetch log never repeats a URL and only records URLs that are in the
visited set (the URL is inserted before its fetch). -/
def stateInv (st : AgentState) : Prop :=
  st.fetchLog.Nodup ∧ ∀ u ∈ st.fetchLog, u ∈ st.visited

/-- How one orchestrator step may transform the agent state: the visited
set only grows, the fetch-log invariant is preserved, and the fetch log is
extended only with URLs that were not visited before the step. -/
def StepOk (st st2 : AgentState) : Prop :=
  st.visited ⊆ st2.visited ∧
  (stateInv st → stateInv st2) ∧
  ∃ nw, st2.fetchLog = st.fetchLog ++ nw ∧ ∀ u ∈ nw, u ∉ st.visited

/-- One node's section of the summary exactly as `summarize_results`
produces it: heading plus verbatim 200-character bullet previews. -/
def renderNode (r : ResultNode) : Str :=
  ("## ".toList) ++ r.query ++ ("\n".toList) ++
  joinWith ("\n".toList) (r.content.map (fun item =>
    ("- ".toList) ++ item.content.take 200 ++ ("...".toList)))

/-- The whole summary as heading sections joined by blank lines. -/
def renderAll (results : List ResultNode) : Str :=
  joinWith ("\n\n".toList) (results.map renderNode)

/-- The rendering described by the claim, which differs from the source
only in collapsing newlines inside the 200-character preview.  This second
definition follows the spec's words and exists to be compared with
`summarize_results`. -/
def claimSummarizeCollapsed (results : List ResultNode) : Str :=
  joinWith ("\n\n".toList) (results.map (fun r =>
    ("## ".toList) ++ r.query ++ ("\n".toList) ++
    joinWith ("\n".toList) (r.content.map (fun item =>
      ("- ".toList) ++
      ((item.content.take 200).map (fun c => if c == '\n' then ' ' else c)) ++
      ("...".toList)))))

/-- The embedded sentence text of a generated sub-query: the part after
the optional `"What is meant by: "` prefix. -/
def embeddedText (s : Str) : Str :=
  if startsWithStr qpfx s then s.drop qpfx.length else s

/-- A fresh agent state (new `ResearchAgent`, empty logs). -/
def emptyAgentState : AgentState := ⟨[], [], [], []⟩

/-- A collaborator environment in which every call raises. -/
def envNone : Env :=
  { searchUrls := fun _ => none, extract := fun _ => none,
    filterC := fun _ => none, genSub := fun _ _ => none }

/-- A collaborator environment in which every call succeeds, used to
instantiate theorems at concrete inputs. -/
def envOk : Env :=
  { searchUrls := fun _ => some [("u1".toList)],
    extract := fun _ => some ("alpha beta gamma delta".toList),
    filterC := fun t => some t,
    genSub := fun _ _ => some [("sub one two three".toList), ("sub two three four".toList)] }

/-- The query of the truncation counterexample. -/
def cex6query : Str := ("query".toList)

/-- A single 128-character sentence of four words sharing the word `query`
with the query: it is selected and returned without any truncation. -/
def cex6text : Str :=
  ("query ".toList) ++ List.replicate 40 'a' ++ [' '] ++
  List.replicate 40 'b' ++ [' '] ++ List.replicate 40 'c'

/-- An input on which `filter_content`'s truncation at 1000 characters cuts
directly after a word boundary, leaving a trailing space. -/
def cex7 : Str := List.replicate 999 'a' ++ [' ', 'b']

/-! ## Helper lemmas -/

theorem foldl_push_eq_map {α β : Type} (f : α → β) :
    ∀ (l : List α) (acc : List β),
      l.foldl (fun a x => a ++ [f x]) acc = acc ++ l.map f := by
  intro l
  induction l with
  | nil => intro acc; simp
  | cons x xs ih => intro acc; simp [ih]

theorem startsWithStr_append (w : Str) :
    ∀ a b : Str, startsWithStr w a = true → startsWithStr w (a ++ b) = true := by
  induction w with
  | nil => intro a b _; rfl
  | cons c cs ih =>
    intro a b h
    cases a with
    | nil => exact absurd h (by simp [startsWithStr])
    | cons a0 arest =>
      simp only [startsWithStr, Bool.and_eq_true] at h
      simp only [List.cons_append, startsWithStr, Bool.and_eq_true]
      exact ⟨h.1, ih arest b h.2⟩

/-! ## Claims -/

/-- C1 counterexample: for a successfully fetched result page in which
parsing yields zero URLs, `_get_search_urls` returns the empty list — not
a non-empty fallback list of known-good URLs, which the claim asserts. -/
theorem get_search_urls_no_fallback_cex :
    get_search_urls (.response 200 ⟨[], [], []⟩) = [] := by decide

/-- C1 (amended): `_get_search_urls` never raises, and its result is
always bounded by 5 URLs, but the degraded cases return the empty list:
a raised exception yields `[]`, and a parsed page with zero matching URLs
yields `[]` (there is no fallback URL list in the code). -/
theorem get_search_urls_bounded_empty (o : SearchOutcome) :
    (get_search_urls o).length ≤ 5
  ∧ (o = .exn → get_search_urls o = [])
  ∧ (∀ status page, o = .response status page → selectUrls page = [] →
      get_search_urls o = []) := by
  refine ⟨?_, ?_, ?_⟩
  · cases o with
    | exn => simp [get_search_urls]
    | response status page =>
      by_cases hs : status = 200
      · simp only [get_search_urls, hs, ne_eq, not_true_eq_false, if_false]
        exact List.length_take_le 5 _
      · simp [get_search_urls, hs]
  · intro h; subst h; rfl
  · intro status page h hsel
    subst h
    by_cases hs : status = 200
    · simp [get_search_urls, hs, hsel, dedupKeepFirst]
    · simp [get_search_urls, hs]

/-- C1 witness: the amended theorem applied to a page whose only anchor is
a blocked `.pdf` link, so that parsing yields zero URLs. -/
theorem get_search_urls_bounded_empty_witness :
    get_search_urls (.response 200 ⟨[some ("http://x.pdf".toList)], [], []⟩) = [] :=
  (get_search_urls_bounded_empty
      (.response 200 ⟨[some ("http://x.pdf".toList)], [], []⟩)).2.2
    200 ⟨[some ("http://x.pdf".toList)], [], []⟩ rfl (by decide)

/-- C3: whenever `depth >= max_depth`, `research` immediately returns the
terminal node `{query, content: [], sub_queries: []}` with the agent state
completely untouched: no search resolution, no fetch, and no mutation of
the visited set or the results list. -/
theorem research_depth_floor (env : Env) (max_depth : Nat) (query : Str)
    (depth : Nat) (st : AgentState) (h : max_depth ≤ depth) :
    research env max_depth query depth st = (.mk query [] [], st) := by
  unfold research
  rw [Nat.sub_eq_zero_of_le h]
  rfl

/-- C3 witness: at `depth = max_depth = 3` the call is terminal even when
every collaborator call would raise. -/
theorem research_depth_floor_witness :
    research envNone 3 ("q".toList) 3 emptyAgentState =
      (.mk ("q".toList) [] [], emptyAgentState) :=
  research_depth_floor envNone 3 ("q".toList) 3 emptyAgentState (by decide)

set_option maxRecDepth 40000 in
/-- C6 counterexample: a 128-character four-word sentence sharing a word
with the query is returned embedded whole — longer than 100 characters and
with no ellipsis marker — so the claimed truncation does not exist. -/
theorem generate_sub_queries_no_truncation_cex :
    ¬ (∀ s ∈ generate_sub_queries cex6query [⟨("u".toList), cex6text⟩],
        (embeddedText s).length ≤ 100) := by decide

/-- C6 (amended): `generate_sub_queries` returns at most 5 strings; the
embedded sentence text is carried verbatim, without the 100-character
truncation or ellipsis the claim describes. -/
theorem generate_sub_queries_at_most_five (query : Str)
    (content : List ContentItem) :
    (generate_sub_queries query content).length ≤ 5 := by
  unfold generate_sub_queries
  rw [List.length_map]
  exact List.length_take_le 5 _

/-- C9 counterexample: a content item containing a newline is previewed
verbatim by `summarize_results`; the newline is not collapsed, so the
code's output differs from the claim's newline-collapsed rendering. -/
theorem summarize_results_newline_cex :
    summarize_results [.mk ("q".toList) [⟨("u".toList), ("a\nb".toList)⟩] []] ≠
    claimSummarizeCollapsed [.mk ("q".toList) [⟨("u".toList), ("a\nb".toList)⟩] []] := by
  decide

/-- C9 (amended): for every RunResults list, `summarize_results` renders,
per node in flat completion order, a `## query` heading followed by one
bullet per content item holding its first 200 characters verbatim (no
newline collapsing) plus an ellipsis marker, sections joined by blank
lines. -/
theorem summarize_results_render (results : List ResultNode) :
    summarize_results results = renderAll results := by
  unfold summarize_results renderAll renderNode
  simp only [foldl_push_eq_map, List.nil_append]

/-- C10: every string returned by `generate_sub_queries` starts,
case-insensitively, with one of the six question words; it is the image
under `pyQuestionize` of a kept sentence — prefixed with
`"What is meant by: "` when the sentence does not already start with a
question word, and returned unchanged when it does. -/
theorem generate_sub_queries_question_start (query : Str)
    (content : List ContentItem) :
    ∀ s ∈ generate_sub_queries query content,
      (qwords.any fun w => startsWithStr w (pyLower s)) = true
    ∧ ∃ t ∈ (selectSentences query content).take 5, s = pyQuestionize t := by
  intro s hs
  unfold generate_sub_queries at hs
  obtain ⟨t, ht, rfl⟩ := List.mem_map.mp hs
  refine ⟨?_, t, ht, rfl⟩
  unfold pyQuestionize
  by_cases h : (qwords.any fun w => startsWithStr w (pyLower t)) = true
  · simp [h]
  · simp only [h, Bool.not_false, if_pos]
    apply List.any_eq_true.mpr
    refine ⟨("what".toList), by decide, ?_⟩
    unfold pyLower
    rw [List.map_append]
    exact startsWithStr_append _ _ _ (by decide)

/-- C10 witness: the theorem applied to a concrete run whose single output
is `"What is meant by: alpha beta gamma delta"`. -/
theorem generate_sub_queries_question_start_witness :
    (qwords.any fun w =>
      startsWithStr w (pyLower (qpfx ++ ("alpha beta gamma delta".toList)))) = true :=
  (generate_sub_queries_question_start ("alpha beta gamma delta".toList)
    [⟨("u".toList), ("alpha beta gamma delta".toList)⟩]
    (qpfx ++ ("alpha beta gamma delta".toList)) (by decide)).1

theorem researchFuel_query (env : Env) (f : Nat) (q : Str) (st : AgentState) :
    (researchFuel env f q st).1.query = q := by
  cases f with
  | zero => rfl
  | succ f =>
    unfold researchFuel
    split
    · rfl
    · split
      · rfl
      · split
        · rfl
        · split
          · rfl
          · rfl

theorem researchFuel_fails (env : Env) (f : Nat) (q : Str) (st : AgentState)
    (h : queryFails env q st) :
    (researchFuel env (f + 1) q st).1 = .mk q [] [] := by
  unfold queryFails at h
  unfold researchFuel
  split at h
  · rename_i henv
    simp only [henv]
  · rename_i urls henv
    simp only [henv]
    split at h
    · rfl
    · rename_i st1 content hp
      rw [if_neg h.1, h.2]

theorem researchFuel_subs (env : Env) (f : Nat) (q : Str) (st st1 : AgentState)
    (urls : List Str) (content : List ContentItem) (subs : List Str)
    (henv : env.searchUrls q = some urls)
    (hp : processUrls env (urls.take 3) (logSearch st q) [] = (st1, some content))
    (hc : content ≠ [])
    (hgen : env.genSub q content = some subs) :
    (researchFuel env (f + 1) q st).1.subQueries.length = (subs.take 2).length := by
  have hce : content.isEmpty = false := by
    cases content with
    | nil => exact absurd rfl hc
    | cons a t => rfl
  unfold researchFuel
  simp only [henv, hp, hce, Bool.false_eq_true, if_false, hgen]
  cases subs with
  | nil => rfl
  | cons q1 t =>
    cases t with
    | nil => rfl
    | cons q2 t2 => rfl

/-- C2: `research` never propagates an exception: every call returns a node
for its query (first conjunct, for all fuels including the recursion
floor); an error raised at any point of the query's own processing —
resolving URLs, fetching/filtering one of them, or generating sub-queries —
is caught at that query's scope and converted into the terminal empty node
(second conjunct); and whatever happens inside the recursive child calls,
the parent still assembles one child node per attempted sub-query, so a
failure in one branch never aborts sibling branches or the parent
(third conjunct). -/
theorem research_error_containment (env : Env) (max_depth : Nat) (q : Str)
    (depth : Nat) (st : AgentState) :
    (research env max_depth q depth st).1.query = q
  ∧ (depth < max_depth → queryFails env q st →
      (research env max_depth q depth st).1 = .mk q [] [])
  ∧ (∀ urls content subs st1, depth < max_depth →
      env.searchUrls q = some urls →
      processUrls env (urls.take 3) (logSearch st q) [] = (st1, some content) →
      content ≠ [] →
      env.genSub q content = some subs →
      (research env max_depth q depth st).1.subQueries.length =
        (subs.take 2).length) := by
  refine ⟨researchFuel_query env _ q st, ?_, ?_⟩
  · intro hd hfail
    unfold research
    have hf : max_depth - depth = (max_depth - depth - 1) + 1 := by omega
    rw [hf]
    exact researchFuel_fails env _ q st hfail
  · intro urls content subs st1 hd henv hp hc hgen
    unfold research
    have hf : max_depth - depth = (max_depth - depth - 1) + 1 := by omega
    rw [hf]
    exact researchFuel_subs env _ q st st1 urls content subs henv hp hc hgen

/-- C2 witness: with every collaborator raising, the top-level call still
returns the terminal empty node; with all collaborators succeeding, the
node carries one child per attempted sub-query. -/
theorem research_error_containment_witness :
    (research envNone 1 ("q".toList) 0 emptyAgentState).1 = .mk ("q".toList) [] []
  ∧ (research envOk 1 ("q".toList) 0 emptyAgentState).1.subQueries.length =
      (([("sub one two three".toList), ("sub two three four".toList)] : List Str).take 2).length :=
  ⟨(research_error_containment envNone 1 ("q".toList) 0 emptyAgentState).2.1
      (by decide) True.intro,
   (research_error_containment envOk 1 ("q".toList) 0 emptyAgentState).2.2
      [("u1".toList)] [⟨("u1".toList), ("alpha beta gamma delta".toList)⟩]
      [("sub one two three".toList), ("sub two three four".toList)]
      ⟨[("u1".toList)], [], [("u1".toList)], [("q".toList)]⟩
      (by decide) rfl rfl (by decide) rfl⟩

theorem StepOk.refl (st : AgentState) : StepOk st st :=
  ⟨fun _ h => h, id, [], by simp, by simp⟩

theorem StepOk.trans {a b c : AgentState} (h1 : StepOk a b) (h2 : StepOk b c) :
    StepOk a c := by
  obtain ⟨hv1, hi1, n1, hl1, hn1⟩ := h1
  obtain ⟨hv2, hi2, n2, hl2, hn2⟩ := h2
  refine ⟨fun u hu => hv2 (hv1 hu), fun hi => hi2 (hi1 hi), n1 ++ n2, ?_, ?_⟩
  · rw [hl2, hl1, List.append_assoc]
  · intro u hu
    rcases List.mem_append.mp hu with hu1 | hu2
    · exact hn1 u hu1
    · intro hv
      exact hn2 u hu2 (hv1 hv)

theorem processUrls_StepOk (env : Env) :
    ∀ (urls : List Str) (st : AgentState) (acc : List ContentItem),
      StepOk st (processUrls env urls st acc).1 := by
  intro urls
  induction urls with
  | nil => intro st acc; exact StepOk.refl st
  | cons url rest ih =>
    intro st acc
    by_cases hv : url ∈ st.visited
    · rw [processUrls, if_pos hv]
      exact ih st acc
    · rw [processUrls, if_neg hv]
      have hstep : StepOk st { st with visited := url :: st.visited,
                                       fetchLog := st.fetchLog ++ [url] } := by
        refine ⟨fun u hu => List.mem_cons_of_mem url hu, ?_, [url], rfl, ?_⟩
        · intro hi
          refine ⟨?_, ?_⟩
          · rw [List.nodup_append]
            refine ⟨hi.1, List.nodup_singleton url, ?_⟩
            intro u hu hu1
            rw [List.mem_singleton] at hu1
            subst hu1
            exact hv (hi.2 u hu)
          · intro u hu
            rcases List.mem_append.mp hu with hu1 | hu1
            · exact List.mem_cons_of_mem url (hi.2 u hu1)
            · rw [List.mem_singleton] at hu1
              rw [hu1]
              exact List.mem_cons_self url st.visited
        · intro u hu
          rw [List.mem_singleton] at hu
          subst hu
          exact hv
      cases env.extract url with
      | none => exact hstep
      | some text =>
        by_cases ht : text.isEmpty
        · simp only [ht, if_true]
          exact hstep.trans (ih _ acc)
        · simp only [ht, if_false, Bool.false_eq_true]
          cases env.filterC text with
          | none => exact hstep
          | some ftext => exact hstep.trans (ih _ _)

theorem researchFuel_StepOk (env : Env) :
    ∀ (f : Nat) (q : Str) (st : AgentState),
      StepOk st (researchFuel env f q st).2 := by
  intro f
  induction f with
  | zero => intro q st; exact StepOk.refl st
  | succ f ih =>
    intro q st
    have hlog : StepOk st (logSearch st q) :=
      ⟨fun _ h => h, id, [], by simp [logSearch], by simp⟩
    unfold researchFuel
    split
    · exact hlog
    · rename_i urls henv
      split
      · rename_i st1 hp
        have hP := processUrls_StepOk env (urls.take 3) (logSearch st q) []
        rw [hp] at hP
        exact hlog.trans hP
      · rename_i st1 content hp
        have hP := processUrls_StepOk env (urls.take 3) (logSearch st q) []
        rw [hp] at hP
        have h1 : StepOk st st1 := hlog.trans hP
        split
        · exact h1
        · split
          · exact h1
          · rename_i subs hgen
            cases subs with
            | nil => exact h1
            | cons q1 t =>
              cases t with
              | nil => exact h1.trans (ih q1 st1)
              | cons q2 t2 =>
                exact (h1.trans (ih q1 st1)).trans (ih q2 (researchFuel env f q1 st1).2)

/-- C4: within one run, the visited-URL set only ever grows across the
whole recursion, the fetch log stays duplicate-free with every fetched URL
recorded in the visited set (each URL is added to the set before its
fetch), and every URL newly fetched during the call was not in the visited
set when the call started — so no URL is ever fetched twice. -/
theorem research_fetch_at_most_once (env : Env) (max_depth : Nat) (q : Str)
    (depth : Nat) (st : AgentState) (h : stateInv st) :
    st.visited ⊆ (research env max_depth q depth st).2.visited
  ∧ stateInv (research env max_depth q depth st).2
  ∧ ∃ nw, (research env max_depth q depth st).2.fetchLog = st.fetchLog ++ nw
        ∧ ∀ u ∈ nw, u ∉ st.visited := by
  have hs := researchFuel_StepOk env (max_depth - depth) q st
  exact ⟨hs.1, hs.2.1 h, hs.2.2⟩

/-- C4 witness: starting a run from a fresh agent state, the final fetch
log is duplicate-free and contained in the final visited set. -/
theorem research_fetch_at_most_once_witness :
    stateInv (research envOk 2 ("q".toList) 0 emptyAgentState).2 :=
  (research_fetch_at_most_once envOk 2 ("q".toList) 0 emptyAgentState
    ⟨List.nodup_nil, by simp [emptyAgentState]⟩).2.1

theorem researchFuel_nodeInv (env : Env) :
    ∀ (f : Nat) (q : Str) (st : AgentState),
      nodeInv (researchFuel env f q st).1 = true := by
  intro f
  induction f with
  | zero => intro q st; simp [researchFuel, nodeInv, nodeInvList]
  | succ f ih =>
    intro q st
    unfold researchFuel
    split
    · simp [nodeInv, nodeInvList]
    · split
      · simp [nodeInv, nodeInvList]
      · rename_i st1 content hp
        split
        · simp [nodeInv, nodeInvList]
        · rename_i hc
          split
          · simp [nodeInv, nodeInvList]
          · rename_i subs hgen
            cases subs with
            | nil => simp [nodeInv, nodeInvList, hc]
            | cons q1 t =>
              cases t with
              | nil => simp [nodeInv, nodeInvList, hc, ih]
              | cons q2 t2 => simp [nodeInv, nodeInvList, hc, ih]

/-- C5: every node of the tree returned by `research` satisfies the
invariant that an empty content sequence forces an empty sub-query
sequence — a node with no gathered source text never recurses
(`nodeInv` checks the invariant at the node and all its descendants). -/
theorem research_content_empty_inv (env : Env) (max_depth : Nat) (q : Str)
    (depth : Nat) (st : AgentState) :
    nodeInv (research env max_depth q depth st).1 = true :=
  researchFuel_nodeInv env (max_depth - depth) q st

theorem pyMaxBy_spec (key : Str → Nat) :
    ∀ l : List Str, l ≠ [] → ∃ p, pyMaxBy key l = some p ∧ p ∈ l := by
  intro l
  induction l with
  | nil => intro h; exact absurd rfl h
  | cons x xs ih =>
    intro _
    cases xs with
    | nil => exact ⟨x, rfl, List.mem_singleton_self x⟩
    | cons y ys =>
      obtain ⟨p, hp, hmem⟩ := ih (by simp)
      by_cases hk : key p > key x
      · refine ⟨p, ?_, List.mem_cons_of_mem x hmem⟩
        rw [pyMaxBy, hp]
        dsimp only
        rw [if_pos hk]
      · refine ⟨x, ?_, List.mem_cons_self x (y :: ys)⟩
        rw [pyMaxBy, hp]
        dsimp only
        rw [if_neg hk]

theorem get_next_proxy_spec (h : ProxyHandler) (hne : h.proxies ≠ []) :
    ∃ p h2, get_next_proxy h = some (p, h2) ∧ p ∈ h.proxies ∧
      h2.proxies = h.proxies ∧ h2.current_proxy = some p := by
  unfold get_next_proxy
  by_cases hav : (h.proxies.filter (fun p => !(h.failed_proxies.contains p))).isEmpty
  · simp only [hav, if_true]
    obtain ⟨p, hp, hmem⟩ := pyMaxBy_spec (scLookup h.success_count) h.proxies hne
    rw [hp]
    exact ⟨p, _, rfl, hmem, rfl, rfl⟩
  · simp only [hav, if_false, Bool.false_eq_true]
    have hfe : h.proxies.filter (fun p => !(h.failed_proxies.contains p)) ≠ [] := by
      intro he
      rw [he] at hav
      exact hav rfl
    obtain ⟨p, hp, hmem⟩ :=
      pyMaxBy_spec (scLookup h.success_count)
        (h.proxies.filter (fun p => !(h.failed_proxies.contains p))) hfe
    rw [hp]
    exact ⟨p, _, rfl, (List.mem_filter.mp hmem).1, rfl, rfl⟩

theorem mark_failed_proxies (h : ProxyHandler) :
    (mark_failed h).proxies = h.proxies := by
  unfold mark_failed
  cases h.current_proxy with
  | none => rfl
  | some p => rfl

theorem makeRequestLoop_none (env : Nat → Str → AttemptOutcome) :
    ∀ (r attempt : Nat) (h : ProxyHandler), h.proxies ≠ [] →
      (∀ i p, env i p ≠ AttemptOutcome.status 200) →
      (makeRequestLoop env attempt r h).1 = none := by
  intro r
  induction r with
  | zero => intro attempt h _ _; rfl
  | succ r ih =>
    intro attempt h hne hfail
    obtain ⟨p, h2, hsel, hmem, hprox, hcur⟩ := get_next_proxy_spec h hne
    have hne2 : (mark_failed h2).proxies ≠ [] := by
      rw [mark_failed_proxies, hprox]
      exact hne
    cases he : env attempt p with
    | status code =>
      by_cases hc : code = 200
      · subst hc
        exact absurd he (hfail attempt p)
      · rw [makeRequestLoop, hsel]
        dsimp only
        rw [he]
        dsimp only
        rw [if_neg hc]
        exact ih (attempt + 1) (mark_failed h2) hne2 hfail
    | exn =>
      rw [makeRequestLoop, hsel]
      dsimp only
      rw [he]
      exact ih (attempt + 1) (mark_failed h2) hne2 hfail

theorem get_next_proxy_current (hh : ProxyHandler) (p : Str) (h2 : ProxyHandler)
    (hsel : get_next_proxy hh = some (p, h2)) : h2.current_proxy = some p := by
  unfold get_next_proxy at hsel
  dsimp only at hsel
  split at hsel
  · exact absurd hsel (by simp)
  · rename_i p' hm
    injection hsel with h3
    have h4 : p' = p := congrArg Prod.fst h3
    have h5 := congrArg Prod.snd h3
    dsimp only at h5
    rw [← h5]
    dsimp only
    rw [h4]

theorem get_next_proxy_reset (hh : ProxyHandler) (hne : hh.proxies ≠ [])
    (hall : ∀ p ∈ hh.proxies, p ∈ hh.failed_proxies) :
    ∃ p h2, get_next_proxy hh = some (p, h2) ∧ p ∈ hh.proxies ∧
      h2.failed_proxies = [] := by
  have hfil : hh.proxies.filter (fun p => !(hh.failed_proxies.contains p)) = [] := by
    rw [List.filter_eq_nil_iff]
    intro a ha
    simp only [Bool.not_eq_true', Bool.not_eq_false]
    exact List.elem_iff.mpr (hall a ha)
  obtain ⟨p, hp, hmem⟩ := pyMaxBy_spec (scLookup hh.success_count) hh.proxies hne
  refine ⟨p, { hh with failed_proxies := [], current_proxy := some p }, ?_, hmem, rfl⟩
  unfold get_next_proxy
  rw [hfil]
  simp only [List.isEmpty_nil, if_true]
  rw [hp]

/-- C8: when every attempt of the retry loop fails (non-200 status or a
raised request exception), `make_request` returns `none` ("no response")
rather than raising (first conjunct); every attempt that fails marks the
proxy endpoint it used as failed (third conjunct); and when every endpoint
of a non-empty pool is marked failed, the next `_get_next_proxy` call still
succeeds, clearing all failure marks and selecting from the full pool
(second conjunct). -/
theorem make_request_exhaustion (env : Nat → Str → AttemptOutcome)
    (h : ProxyHandler) (n : Nat)
    (hne : h.proxies ≠ [])
    (hfail : ∀ i p, env i p ≠ AttemptOutcome.status 200) :
    (make_request env h n).1 = none
  ∧ ((∀ p ∈ h.proxies, p ∈ h.failed_proxies) →
      ∃ p h2, get_next_proxy h = some (p, h2) ∧ p ∈ h.proxies ∧
        h2.failed_proxies = [])
  ∧ (∀ p h2, get_next_proxy h = some (p, h2) →
      p ∈ (mark_failed h2).failed_proxies) := by
  refine ⟨makeRequestLoop_none env n 0 h hne hfail, ?_, ?_⟩
  · intro hall
    exact get_next_proxy_reset h hne hall
  · intro p h2 hsel
    have hc := get_next_proxy_current h p h2 hsel
    unfold mark_failed
    rw [hc]
    exact List.mem_cons_self p h2.failed_proxies

/-- C8 witness: the theorem applied to the initial pool with every network
attempt raising a request exception and three retries. -/
theorem make_request_exhaustion_witness :
    (make_request (fun _ _ => AttemptOutcome.exn) initProxyHandler 3).1 = none :=
  (make_request_exhaustion (fun _ _ => AttemptOutcome.exn) initProxyHandler 3
    (by decide) (fun i p h => AttemptOutcome.noConfusion h)).1

theorem splitWs_cons (c : Char) (rest : Str) :
    splitWs (c :: rest) =
      if pyIsSpace c then splitWs rest
      else
        match rest with
        | [] => [[c]]
        | c2 :: _ =>
          if pyIsSpace c2 then [c] :: splitWs rest
          else
            match splitWs rest with
            | [] => [[c]]
            | w :: ws => (c :: w) :: ws := rfl

theorem splitWs_words :
    ∀ s : Str, ∀ w ∈ splitWs s, w ≠ [] ∧ ∀ c ∈ w, pyIsSpace c = false := by
  intro s
  induction s with
  | nil => intro w hw; simp [splitWs] at hw
  | cons c rest ih =>
    intro w hw
    by_cases hc : pyIsSpace c = true
    · rw [splitWs_cons, if_pos hc] at hw
      exact ih w hw
    · have hcf : pyIsSpace c = false := by simpa using hc
      rw [splitWs_cons, if_neg hc] at hw
      cases rest with
      | nil =>
        simp only [List.mem_singleton] at hw
        subst hw
        refine ⟨by simp, ?_⟩
        intro x hx
        rw [List.mem_singleton] at hx
        rw [hx]
        exact hcf
      | cons c2 rest2 =>
        dsimp only at hw
        by_cases hc2 : pyIsSpace c2 = true
        · rw [if_pos hc2] at hw
          rcases List.mem_cons.mp hw with hw1 | hw1
          · subst hw1
            refine ⟨by simp, ?_⟩
            intro x hx
            rw [List.mem_singleton] at hx
            rw [hx]
            exact hcf
          · exact ih w hw1
        · rw [if_neg hc2] at hw
          cases hsw : splitWs (c2 :: rest2) with
          | nil =>
            rw [hsw] at hw
            simp only [List.mem_singleton] at hw
            subst hw
            refine ⟨by simp, ?_⟩
            intro x hx
            rw [List.mem_singleton] at hx
            rw [hx]
            exact hcf
          | cons w0 ws0 =>
            rw [hsw] at hw
            dsimp only at hw
            rcases List.mem_cons.mp hw with hw1 | hw1
            · subst hw1
              refine ⟨by simp, ?_⟩
              intro x hx
              rcases List.mem_cons.mp hx with hx1 | hx1
              · rw [hx1]
                exact hcf
              · exact (ih w0 (hsw ▸ List.mem_cons_self w0 ws0)).2 x hx1
            · exact ih w (hsw ▸ List.mem_cons_of_mem w0 hw1)

theorem splitWs_single :
    ∀ w : Str, w ≠ [] → (∀ c ∈ w, pyIsSpace c = false) → splitWs w = [w] := by
  intro w
  induction w with
  | nil => intro h; exact absurd rfl h
  | cons c w' ih =>
    intro _ hchars
    have hcf : pyIsSpace c = false := hchars c (List.mem_cons_self c w')
    rw [splitWs_cons, if_neg (by simp [hcf])]
    cases w' with
    | nil => rfl
    | cons c2 w'' =>
      have hc2f : pyIsSpace c2 = false := hchars c2 (by simp)
      dsimp only
      rw [if_neg (by simp [hc2f])]
      rw [ih (by simp) (fun x hx => hchars x (List.mem_cons_of_mem c hx))]

theorem splitWs_word_space :
    ∀ (w t : Str), w ≠ [] → (∀ c ∈ w, pyIsSpace c = false) →
      splitWs (w ++ ' ' :: t) = w :: splitWs t := by
  intro w
  induction w with
  | nil => intro t h; exact absurd rfl h
  | cons c w' ih =>
    intro t _ hchars
    have hcf : pyIsSpace c = false := hchars c (List.mem_cons_self c w')
    have hsp : pyIsSpace ' ' = true := by decide
    cases w' with
    | nil =>
      simp only [List.cons_append, List.nil_append]
      rw [splitWs_cons, if_neg (by simp [hcf])]
      dsimp only
      rw [if_pos hsp]
      have h2 : splitWs (' ' :: t) = splitWs t := by
        rw [splitWs_cons, if_pos hsp]
      rw [h2]
    | cons c2 w'' =>
      have hc2f : pyIsSpace c2 = false := hchars c2 (by simp)
      have hih := ih t (by simp) (fun x hx => hchars x (List.mem_cons_of_mem c hx))
      rw [List.cons_append] at hih
      simp only [List.cons_append]
      rw [splitWs_cons, if_neg (by simp [hcf])]
      dsimp only
      rw [if_neg (by simp [hc2f])]
      rw [hih]

theorem splitWs_joinWith :
    ∀ ws : List Str, (∀ w ∈ ws, w ≠ [] ∧ ∀ c ∈ w, pyIsSpace c = false) →
      splitWs (joinWith [' '] ws) = ws := by
  intro ws
  induction ws with
  | nil => intro _; rfl
  | cons w rest ih =>
    intro hws
    cases rest with
    | nil =>
      rw [joinWith]
      exact splitWs_single w (hws w (by simp)).1 (hws w (by simp)).2
    | cons w2 rest2 =>
      rw [joinWith]
      rw [List.append_assoc]
      simp only [List.cons_append, List.nil_append]
      rw [splitWs_word_space w _ (hws w (by simp)).1 (hws w (by simp)).2]
      rw [ih (fun x hx => hws x (List.mem_cons_of_mem w hx))]

theorem joinWith_cons_head (c : Char) (w : Str) (ws : List Str) :
    joinWith [' '] ((c :: w) :: ws) = c :: joinWith [' '] (w :: ws) := by
  cases ws with
  | nil => rfl
  | cons x xs => rfl

theorem joinWith_splitWs_length :
    ∀ (n : Nat) (s : Str), s.length ≤ n →
      (joinWith [' '] (splitWs s)).length ≤ s.length := by
  intro n
  induction n with
  | zero =>
    intro s hs
    have hnil : s = [] := List.eq_nil_of_length_eq_zero (Nat.le_zero.mp hs)
    subst hnil
    simp [splitWs, joinWith]
  | succ n ih =>
    intro s hs
    cases s with
    | nil => simp [splitWs, joinWith]
    | cons c rest =>
      rw [List.length_cons] at hs
      by_cases hc : pyIsSpace c = true
      · rw [splitWs_cons, if_pos hc]
        have := ih rest (Nat.le_of_succ_le_succ hs)
        rw [List.length_cons]
        omega
      · rw [splitWs_cons, if_neg hc]
        cases rest with
        | nil => simp [joinWith]
        | cons c2 rest2 =>
          rw [List.length_cons] at hs ⊢
          dsimp only
          by_cases hc2 : pyIsSpace c2 = true
          · rw [if_pos hc2]
            have he : splitWs (c2 :: rest2) = splitWs rest2 := by
              rw [splitWs_cons, if_pos hc2]
            rw [he]
            have hr2 : rest2.length ≤ n := by omega
            have hlen := ih rest2 hr2
            cases hsw : splitWs rest2 with
            | nil =>
              simp [joinWith, List.length_cons]
            | cons w0 ws0 =>
              rw [joinWith]
              rw [hsw] at hlen
              simp only [List.length_append, List.length_cons, List.length_singleton,
                List.length_nil]
              omega
          · rw [if_neg hc2]
            have hr1 : (c2 :: rest2).length ≤ n := by
              rw [List.length_cons]
              omega
            have hlen := ih (c2 :: rest2) hr1
            cases hsw : splitWs (c2 :: rest2) with
            | nil =>
              simp [joinWith, List.length_cons]
            | cons w0 ws0 =>
              rw [hsw] at hlen
              dsimp only
              rw [joinWith_cons_head]
              rw [List.length_cons] at hlen ⊢
              rw [List.length_cons]
              omega

/-- C7 counterexample: on an input whose normalized form is 1001 characters
long, the truncation at 1000 cuts directly after a word, leaving a trailing
space; a second `filter_content` application removes that space, so
`filter_content` is not idempotent. -/
theorem filter_content_not_idem_cex :
    filter_content (filter_content cex7) ≠ filter_content cex7 := by
  have hw : ∀ c ∈ List.replicate 999 'a', pyIsSpace c = false := by
    intro c hc
    rw [List.eq_of_mem_replicate hc]
    decide
  have hwne : (List.replicate 999 'a' : Str) ≠ [] := by
    intro hx
    have hl := congrArg List.length hx
    rw [List.length_replicate, List.length_nil] at hl
    exact absurd hl (by decide)
  have hsplit1 : splitWs cex7 = [List.replicate 999 'a', ['b']] := by
    have h1 : cex7 = List.replicate 999 'a' ++ ' ' :: ['b'] := rfl
    rw [h1, splitWs_word_space _ _ hwne hw]
    rfl
  have hlen1 : (List.replicate 999 'a' ++ [' '] : Str).length = 1000 := by
    rw [List.length_append, List.length_replicate]
    decide
  have hfc1 : filter_content cex7 = List.replicate 999 'a' ++ [' '] := by
    unfold filter_content
    rw [hsplit1]
    rw [show joinWith [' '] [List.replicate 999 'a', ['b']] =
          (List.replicate 999 'a' ++ [' ']) ++ ['b'] from rfl]
    rw [List.take_append_eq_append_take]
    rw [List.take_of_length_le (le_of_eq hlen1), hlen1]
    rw [Nat.sub_self, List.take_zero, List.append_nil]
  have hsplit2 : splitWs (List.replicate 999 'a' ++ [' ']) = [List.replicate 999 'a'] := by
    rw [show (List.replicate 999 'a' ++ [' '] : Str) =
          List.replicate 999 'a' ++ ' ' :: [] from rfl]
    rw [splitWs_word_space _ _ hwne hw]
    rfl
  have hfc2 : filter_content (List.replicate 999 'a' ++ [' ']) = List.replicate 999 'a' := by
    unfold filter_content
    rw [hsplit2]
    rw [show joinWith [' '] [List.replicate 999 'a'] = List.replicate 999 'a' from rfl]
    refine List.take_of_length_le ?_
    rw [List.length_replicate]
    decide
  rw [hfc1, hfc2]
  intro hx
  have hl := congrArg List.length hx
  rw [List.length_replicate, hlen1] at hl
  exact absurd hl (by decide)

/-- C7 (amended): `filter_content` is idempotent on every input of length
at most 1000 — in general, whenever the 1000-character truncation does not
apply; a second application differs only by dropping a trailing space that
truncation can leave behind. -/
theorem filter_content_idem_bounded (x : Str) (h : x.length ≤ 1000) :
    filter_content (filter_content x) = filter_content x := by
  have hlen : (joinWith [' '] (splitWs x)).length ≤ 1000 :=
    le_trans (joinWith_splitWs_length x.length x le_rfl) h
  have htake : (joinWith [' '] (splitWs x)).take 1000 = joinWith [' '] (splitWs x) :=
    List.take_of_length_le hlen
  unfold filter_content
  rw [htake, splitWs_joinWith (splitWs x) (splitWs_words x), htake]

/-- C7 witness: the amended idempotence applied to a short concrete input. -/
theorem filter_content_idem_bounded_witness :
    filter_content (filter_content ("a  b ".toList)) = filter_content ("a  b ".toList) :=
  filter_content_idem_bounded (("a  b ".toList)) (by decide)
